import Mathlib

/-!
Verification development for the json-schema-viewer excerpt.

The TypeScript sources are shallowly embedded:
* `src/components/shared/Validations.tsx` — validation extraction and badge
  presentation (`filterOutOasFormatValidations`, `getValidationsFromSchema`,
  `Validations`, `NumberValidations`, `validationCount`, ...);
* `SchemaTree` (tree host) — node-click handling;
* `SchemaRow` / `SchemaPropertyRow` / `SchemaErrorRow` — row rendering,
  required-ness check, combiner selection.

JavaScript values flowing through validation dictionaries are modelled by
`JsonValue`; JS objects by association lists with unique keys (`JsDict`).
`String(v)` is `jsToString`, truthiness is `jsTruthy`, strict equality `===`
on the primitive values that occur here coincides with structural equality.
-/

/-- A JavaScript value as it occurs in validation dictionaries, schema
fragments and paths: `null`, booleans, numbers (the numbers occurring in this
code are integral; JS float rounding is not modelled — numeric literals are
read off the source text), strings, arrays and plain objects. -/
inductive JsonValue where
  | null : JsonValue
  | bool (b : Bool) : JsonValue
  | num (n : Int) : JsonValue
  | str (s : String) : JsonValue
  | arr (elems : List JsonValue) : JsonValue
  | obj (fields : List (String × JsonValue)) : JsonValue
  deriving Repr

mutual

/-- Decidable structural equality on `JsonValue` (JS `===` on the primitive
values that occur in this code, deep equality on composites). -/
def jsonValueDecEq : (a b : JsonValue) → Decidable (a = b)
  | .null, .null => .isTrue rfl
  | .null, .bool _ => .isFalse (fun h => JsonValue.noConfusion h)
  | .null, .num _ => .isFalse (fun h => JsonValue.noConfusion h)
  | .null, .str _ => .isFalse (fun h => JsonValue.noConfusion h)
  | .null, .arr _ => .isFalse (fun h => JsonValue.noConfusion h)
  | .null, .obj _ => .isFalse (fun h => JsonValue.noConfusion h)
  | .bool _, .null => .isFalse (fun h => JsonValue.noConfusion h)
  | .bool x, .bool y =>
    match decEq x y with
    | .isTrue h => .isTrue (h ▸ rfl)
    | .isFalse h => .isFalse (fun hc => h (JsonValue.bool.inj hc))
  | .bool _, .num _ => .isFalse (fun h => JsonValue.noConfusion h)
  | .bool _, .str _ => .isFalse (fun h => JsonValue.noConfusion h)
  | .bool _, .arr _ => .isFalse (fun h => JsonValue.noConfusion h)
  | .bool _, .obj _ => .isFalse (fun h => JsonValue.noConfusion h)
  | .num _, .null => .isFalse (fun h => JsonValue.noConfusion h)
  | .num _, .bool _ => .isFalse (fun h => JsonValue.noConfusion h)
  | .num x, .num y =>
    match decEq x y with
    | .isTrue h => .isTrue (h ▸ rfl)
    | .isFalse h => .isFalse (fun hc => h (JsonValue.num.inj hc))
  | .num _, .str _ => .isFalse (fun h => JsonValue.noConfusion h)
  | .num _, .arr _ => .isFalse (fun h => JsonValue.noConfusion h)
  | .num _, .obj _ => .isFalse (fun h => JsonValue.noConfusion h)
  | .str _, .null => .isFalse (fun h => JsonValue.noConfusion h)
  | .str _, .bool _ => .isFalse (fun h => JsonValue.noConfusion h)
  | .str _, .num _ => .isFalse (fun h => JsonValue.noConfusion h)
  | .str x, .str y =>
    match decEq x y with
    | .isTrue h => .isTrue (h ▸ rfl)
    | .isFalse h => .isFalse (fun hc => h (JsonValue.str.inj hc))
  | .str _, .arr _ => .isFalse (fun h => JsonValue.noConfusion h)
  | .str _, .obj _ => .isFalse (fun h => JsonValue.noConfusion h)
  | .arr _, .null => .isFalse (fun h => JsonValue.noConfusion h)
  | .arr _, .bool _ => .isFalse (fun h => JsonValue.noConfusion h)
  | .arr _, .num _ => .isFalse (fun h => JsonValue.noConfusion h)
  | .arr _, .str _ => .isFalse (fun h => JsonValue.noConfusion h)
  | .arr x, .arr y =>
    match jsonListDecEq x y with
    | .isTrue h => .isTrue (h ▸ rfl)
    | .isFalse h => .isFalse (fun hc => h (JsonValue.arr.inj hc))
  | .arr _, .obj _ => .isFalse (fun h => JsonValue.noConfusion h)
  | .obj _, .null => .isFalse (fun h => JsonValue.noConfusion h)
  | .obj _, .bool _ => .isFalse (fun h => JsonValue.noConfusion h)
  | .obj _, .num _ => .isFalse (fun h => JsonValue.noConfusion h)
  | .obj _, .str _ => .isFalse (fun h => JsonValue.noConfusion h)
  | .obj _, .arr _ => .isFalse (fun h => JsonValue.noConfusion h)
  | .obj x, .obj y =>
    match jsonFieldsDecEq x y with
    | .isTrue h => .isTrue (h ▸ rfl)
    | .isFalse h => .isFalse (fun hc => h (JsonValue.obj.inj hc))

/-- Decidable equality on lists of `JsonValue`. -/
def jsonListDecEq : (a b : List JsonValue) → Decidable (a = b)
  | [], [] => .isTrue rfl
  | [], _ :: _ => .isFalse (fun h => List.noConfusion h)
  | _ :: _, [] => .isFalse (fun h => List.noConfusion h)
  | x :: xs, y :: ys =>
    match jsonValueDecEq x y with
    | .isTrue h1 =>
      match jsonListDecEq xs ys with
      | .isTrue h2 => .isTrue (h1 ▸ h2 ▸ rfl)
      | .isFalse h2 => .isFalse (fun hc => h2 (List.cons.inj hc).2
        )
    | .isFalse h1 => .isFalse (fun hc => h1 (List.cons.inj hc).1)

/-- Decidable equality on `JsonValue` object field lists. -/
def jsonFieldsDecEq : (a b : List (String × JsonValue)) → Decidable (a = b)
  | [], [] => .isTrue rfl
  | [], _ :: _ => .isFalse (fun h => List.noConfusion h)
  | _ :: _, [] => .isFalse (fun h => List.noConfusion h)
  | (k, v) :: xs, (k2, v2) :: ys =>
    match decEq k k2 with
    | .isTrue hk =>
      match jsonValueDecEq v v2 with
      | .isTrue hv =>
        match jsonFieldsDecEq xs ys with
        | .isTrue ht => .isTrue (hk ▸ hv ▸ ht ▸ rfl)
        | .isFalse ht => .isFalse (fun hc => ht (List.cons.inj hc).2)
      | .isFalse hv => .isFalse
        (fun hc => hv (congrArg Prod.snd (List.cons.inj hc).1))
    | .isFalse hk => .isFalse
      (fun hc => hk (congrArg Prod.fst (List.cons.inj hc).1))

end

instance : DecidableEq JsonValue := jsonValueDecEq

/-- A JS object used as a string-keyed dictionary: an association list in
insertion order. JS objects have unique keys; theorems that depend on this
take a `Nodup` hypothesis on the key list. -/
abbrev JsDict := List (String × JsonValue)

/-- `d[k]`: first value bound to key `k` (`none` = `undefined`). -/
def jsLookup (d : JsDict) (k : String) : Option JsonValue :=
  match d with
  | [] => none
  | e :: rest => if e.1 = k then some e.2 else jsLookup rest k

/-- `Object.keys`, in insertion order. -/
def jsKeys (d : JsDict) : List String :=
  d.map Prod.fst

/-- `delete d[k]`. -/
def jsDelete (d : JsDict) (k : String) : JsDict :=
  d.filter (fun e => !(e.1 = k : Bool))

/-- Object spread `\x7b...a, ...b\x7d`: keys of `a` first (values overridden
by `b` where both bind the key), then the keys of `b` that are not in `a`. -/
def jsMerge (a b : JsDict) : JsDict :=
  a.map (fun e => (e.1, (jsLookup b e.1).getD e.2)) ++
    b.filter (fun e => !((jsKeys a).contains e.1))

mutual

/-- JS `String(v)` conversion, for the values exercised here.  Arrays join
their elements with `,`, `null` elements joining as the empty string; plain
objects print as `[object Object]`. -/
def jsToString : JsonValue → String
  | .null => "null"
  | .bool true => "true"
  | .bool false => "false"
  | .num n => toString n
  | .str s => s
  | .arr elems => String.intercalate "," (jsArrElemStrings elems)
  | .obj _ => "[object Object]"

/-- Element strings for `Array.prototype.toString` (join): `null` becomes
the empty string. -/
def jsArrElemStrings : List JsonValue → List String
  | [] => []
  | .null :: rest => "" :: jsArrElemStrings rest
  | .bool b :: rest => jsToString (.bool b) :: jsArrElemStrings rest
  | .num n :: rest => jsToString (.num n) :: jsArrElemStrings rest
  | .str s :: rest => jsToString (.str s) :: jsArrElemStrings rest
  | .arr xs :: rest => jsToString (.arr xs) :: jsArrElemStrings rest
  | .obj fs :: rest => jsToString (.obj fs) :: jsArrElemStrings rest

end

/-- JS truthiness: `null`, `false`, `0` and `""` are falsy; arrays and
objects are always truthy. -/
def jsTruthy : JsonValue → Bool
  | .null => false
  | .bool b => b
  | .num n => !(n = 0 : Bool)
  | .str s => !(s = "" : Bool)
  | .arr _ => true
  | .obj _ => true

mutual

/-- `JSON.stringify`, for the values exercised here (escape sequences inside
string contents are not modelled; the strings occurring in the claims contain
no characters needing escapes). -/
def jsonStringify : JsonValue → String
  | .null => "null"
  | .bool true => "true"
  | .bool false => "false"
  | .num n => toString n
  | .str s => "\"" ++ s ++ "\""
  | .arr elems => "[" ++ String.intercalate "," (jsonStringifyList elems) ++ "]"
  | .obj fields => "\x7b" ++ String.intercalate "," (jsonStringifyFields fields) ++ "\x7d"

def jsonStringifyList : List JsonValue → List String
  | [] => []
  | v :: rest => jsonStringify v :: jsonStringifyList rest

def jsonStringifyFields : List (String × JsonValue) → List String
  | [] => []
  | f :: rest => ("\"" ++ f.1 ++ "\":" ++ jsonStringify f.2) :: jsonStringifyFields rest

end

/-- Helper for `jsUniq`: de-duplicate keeping first occurrences, `seen`
holding the elements already emitted. -/
def jsUniqAux {α : Type} [DecidableEq α] (seen : List α) : List α → List α
  | [] => []
  | x :: xs =>
    if seen.contains x then jsUniqAux seen xs
    else x :: jsUniqAux (x :: seen) xs

/-- lodash `uniq`: de-duplicate keeping first occurrences. -/
def jsUniq {α : Type} [DecidableEq α] (l : List α) : List α :=
  jsUniqAux [] l

/-- lodash `capitalize`: first character upper-cased, the rest lower-cased. -/
def lodashCapitalize (s : String) : String :=
  match s.data with
  | [] => ""
  | c :: rest => String.mk (c.toUpper :: rest.map Char.toLower)

/-! ## `src/components/shared/Validations.tsx` -/

/-- `numberValidationNames` (Validations.tsx). -/
def numberValidationNames : List String :=
  ["minimum", "maximum", "minLength", "maxLength", "minItems", "maxItems",
   "exclusiveMinimum", "exclusiveMaximum"]

/-- `exampleValidationNames` (Validations.tsx). -/
def exampleValidationNames : List String :=
  ["examples"]

/-- `excludedValidations` (Validations.tsx). -/
def excludedValidations : List String :=
  ["exclusiveMinimum", "exclusiveMaximum", "readOnly", "writeOnly"]

/-- `numberValidationFormatters` (Validations.tsx): the record of badge-text
templates, keyed by validation name; `none` models the absence of an entry
for any other key. `\x24\x7bvalue\x7d` interpolation is JS `String(value)`. -/
def numberValidationFormatters (key : String) (value : JsonValue) : Option String :=
  if key = "minimum" then some (">= " ++ jsToString value)
  else if key = "exclusiveMinimum" then some ("> " ++ jsToString value)
  else if key = "minItems" then some (">= " ++ jsToString value ++ " items")
  else if key = "minLength" then some (">= " ++ jsToString value ++ " characters")
  else if key = "maximum" then some ("<= " ++ jsToString value)
  else if key = "exclusiveMaximum" then some ("< " ++ jsToString value)
  else if key = "maxItems" then some ("<= " ++ jsToString value ++ " items")
  else if key = "maxLength" then some ("<= " ++ jsToString value ++ " characters")
  else none

/-- `createStringFormatter(nowrap)` (Validations.tsx). -/
def createStringFormatter (nowrap : Bool) (value : JsonValue) : String :=
  match value with
  | .str s => if nowrap then s else jsonStringify (.str s)
  | v => jsonStringify v

/-- The `ValidationFormat` shape returned by `createValidationsFormatter`. -/
structure ValidationFormat where
  name : String
  values : List String
  deriving Repr, DecidableEq

/-- `createValidationsFormatter(name, options)` (Validations.tsx): wraps a
non-array value into a one-element array, picks a singular/plural label
unless `exact`, and string-formats each value. -/
def createValidationsFormatter (name : String) (exact nowrap : Bool)
    (value : JsonValue) : Option ValidationFormat :=
  let values : List JsonValue :=
    match value with
    | .arr elems => elems
    | v => [v]
  if values.length ≠ 0 then
    some { name := if exact then name
                   else if values.length > 1 then name ++ " values"
                   else name ++ " value",
           values := values.map (createStringFormatter nowrap) }
  else none

/-- `validationFormatters` (Validations.tsx): registered keyed formatters;
`none` models the absence of a formatter for the key. -/
def validationFormatters (key : String) (value : JsonValue) :
    Option (Option ValidationFormat) :=
  if key = "enum" then some (createValidationsFormatter "Allowed" false false value)
  else if key = "examples" then some (createValidationsFormatter "Example" false false value)
  else if key = "multipleOf" then some (createValidationsFormatter "Multiple of" true false value)
  else if key = "pattern" then some (createValidationsFormatter "Match pattern" true true value)
  else if key = "default" then some (createValidationsFormatter "Default" false false value)
  else none

/-- The keys of the `validationFormatters` record. -/
def validationFormatterNames : List String :=
  ["enum", "examples", "multipleOf", "pattern", "default"]

/-- `oasFormats` (Validations.tsx), as key → implied-validation entries.
The numeric literals follow the source text (`2 ** 63 - 1` etc.; JS float
rounding of these literals is not modelled); `Number.MAX_VALUE` is the
largest double, `(2 ^ 53 - 1) * 2 ^ 971`. -/
def oasFormats (format : String) : Option JsDict :=
  if format = "int32" then
    some [("minimum", .num (0 - 2 ^ 31)), ("maximum", .num (2 ^ 31 - 1))]
  else if format = "int64" then
    some [("minimum", .num (0 - 2 ^ 63)), ("maximum", .num (2 ^ 63 - 1))]
  else if format = "float" then
    some [("minimum", .num (0 - 2 ^ 128)), ("maximum", .num (2 ^ 128 - 1))]
  else if format = "double" then
    some [("minimum", .num (0 - (2 ^ 53 - 1) * 2 ^ 971)),
          ("maximum", .num ((2 ^ 53 - 1) * 2 ^ 971))]
  else if format = "byte" then
    some [("pattern", .str "^[\\w\\d+\\/=]*$")]
  else none

/-- The loop body of `filterOutOasFormatValidations`: delete the entry when
its value strictly equals (`===`) the format's implied value. -/
def oasFilterStep (newValues : JsDict) (kv : String × JsonValue) : JsDict :=
  if jsLookup newValues kv.1 = some kv.2 then jsDelete newValues kv.1
  else newValues

/-- `filterOutOasFormatValidations` (Validations.tsx): for a known format,
delete every validation entry whose value strictly equals the format's
implied value; unknown formats return the dictionary unchanged. -/
def filterOutOasFormatValidations (format : String) (values : JsDict) : JsDict :=
  match oasFormats format with
  | none => values
  | some entries => entries.foldl oasFilterStep values

/-- The slice of `RegularNode` (from `@stoplight/json-schema-tree`) that
`Validations.tsx` reads: a nullable `enum`, an optional `annotations` bag
(`none` models a node without the `annotations` member), a nullable named
`format` and the declared validation facts. -/
structure RegularNode where
  enumValues : Option (List JsonValue)
  annotations : Option JsDict
  format : Option String
  validations : JsDict
  deriving Repr, DecidableEq

/-- `getFilteredValidations` (Validations.tsx). -/
def getFilteredValidations (schemaNode : RegularNode) : JsDict :=
  match schemaNode.format with
  | some format => filterOutOasFormatValidations format schemaNode.validations
  | none => schemaNode.validations

/-- The `enum` contribution to `getValidationsFromSchema`:
included iff `schemaNode.enum !== null`. -/
def enumPart (schemaNode : RegularNode) : JsDict :=
  match schemaNode.enumValues with
  | some elems => [("enum", .arr elems)]
  | none => []

/-- The `annotations` contribution to `getValidationsFromSchema`:
`default` / `examples` included iff the annotation value is truthy. -/
def annotationsPart (schemaNode : RegularNode) : JsDict :=
  match schemaNode.annotations with
  | some ann =>
    (match jsLookup ann "default" with
     | some d => if jsTruthy d then [("default", d)] else []
     | none => []) ++
    (match jsLookup ann "examples" with
     | some e => if jsTruthy e then [("examples", e)] else []
     | none => [])
  | none => []

/-- `getValidationsFromSchema` (Validations.tsx): spread of the enum part,
the annotations part and the format-filtered validations. -/
def getValidationsFromSchema (schemaNode : RegularNode) : JsDict :=
  jsMerge (enumPart schemaNode ++ annotationsPart schemaNode)
    (getFilteredValidations schemaNode)

/-- `validationCount` (Validations.tsx): distinct validation kinds after
dropping the excluded names, all numeric names collapsing to `"number"`. -/
def validationCount (schemaNode : RegularNode) : Nat :=
  let validations := getValidationsFromSchema schemaNode
  let validationKeys :=
    (jsKeys validations).filter (fun k => !(excludedValidations.contains k))
  (jsUniq (validationKeys.map
    (fun key => if numberValidationNames.contains key then "number" else key))).length

/-! ### The `Validations` component -/

/-- `pick(validations, numberValidationNames)` — lodash `pick` iterates the
given name list, so the resulting keys are in canonical numeric order. -/
def numberValidationsOf (validations : JsDict) : JsDict :=
  numberValidationNames.filterMap
    (fun k => (jsLookup validations k).map (fun v => (k, v)))

/-- `omit(pickBy(validations, v => ['true','false'].includes(String(v))),
excludedValidations)` — both lodash helpers preserve insertion order. -/
def booleanValidationsOf (validations : JsDict) : JsDict :=
  (validations.filter
      (fun e => jsToString e.2 = "true" ∨ jsToString e.2 = "false")).filter
    (fun e => !(excludedValidations.contains e.1))

/-- `omit(validations, [...keys(numberValidations), ...keys(booleanValidations),
...excludedValidations, ...(hideExamples ? exampleValidationNames : [])])`. -/
def keyValueValidationsOf (validations : JsDict) (hideExamples : Bool) : JsDict :=
  let omitted :=
    jsKeys (numberValidationsOf validations) ++
    jsKeys (booleanValidationsOf validations) ++
    excludedValidations ++
    (if hideExamples then exampleValidationNames else [])
  validations.filter (fun e => !(omitted.contains e.1))

/-- One rendered block of validation badges: the numeric row, one key/value
row per keyed validation, or the boolean-flag row. -/
inductive RenderedBlock where
  | numberBlock (badges : List String) : RenderedBlock
  | keyValueBlock (name : String) (values : List String) : RenderedBlock
  | nameBlock (badges : List String) : RenderedBlock
  deriving Repr, DecidableEq

/-- `NumberValidations` (Validations.tsx): nothing when empty, otherwise one
badge per entry, text produced by the template for the entry's key.  (The
`getD` default is unreachable: the component is fed from `pick(validations,
numberValidationNames)`, whose keys all have registered templates.) -/
def renderNumberValidations (validations : JsDict) : List RenderedBlock :=
  if validations.length = 0 then []
  else
    [RenderedBlock.numberBlock
      (validations.map (fun e => (numberValidationFormatters e.1 e.2).getD "undefined"))]

/-- `KeyValueValidations` + `KeyValueValidation` (Validations.tsx): only keys
with a registered formatter render; a `null` formatter result renders
nothing; the label is capitalized and the values de-duplicated. -/
def renderKeyValueValidations (validations : JsDict) : List RenderedBlock :=
  ((jsKeys validations).filter (fun k => validationFormatterNames.contains k)).filterMap
    (fun key =>
      match validationFormatters key ((jsLookup validations key).getD .null) with
      | some (some validation) =>
        some (RenderedBlock.keyValueBlock (lodashCapitalize validation.name)
          (jsUniq validation.values))
      | _ => none)

/-- `NameValidations` (Validations.tsx): nothing when the dictionary is
empty, otherwise one badge per truthy flag, labeled by the key. -/
def renderNameValidations (validations : JsDict) : List RenderedBlock :=
  if validations.length = 0 then []
  else
    [RenderedBlock.nameBlock
      ((jsKeys validations).filter
        (fun key => jsTruthy ((jsLookup validations key).getD .null)))]

/-- The `Validations` component (Validations.tsx): partitions the mapping
into the three buckets and renders the numeric block, then the key/value
blocks, then the boolean block. -/
def renderValidations (validations : JsDict) (hideExamples : Bool) : List RenderedBlock :=
  renderNumberValidations (numberValidationsOf validations) ++
  renderKeyValueValidations (keyValueValidationsOf validations hideExamples) ++
  renderNameValidations (booleanValidationsOf validations)

/-! ## The tree side: `SchemaTree` (tree host) and `SchemaRow` -/

/-- The slice of `JSONSchema4` that this code reads: the declared `type`
(string or array of strings) and the declared `required` (any JS value;
the code checks `Array.isArray` before using it). -/
structure JSONSchema4 where
  type : Option JsonValue
  required : Option JsonValue
  deriving Repr, DecidableEq

/-- `JSONSchema4 | JSONSchema4[]`, the shape of `items` and of
`getRelevantSchemaForRequireCheck`'s non-null results. -/
inductive JSONSchema4OrArray where
  | single (s : JSONSchema4) : JSONSchema4OrArray
  | array (l : List JSONSchema4) : JSONSchema4OrArray
  deriving Repr, DecidableEq

/-- Modelled from the spec: `getPrimaryType` lives in
`src/utils/getPrimaryType`, outside this excerpt.  The spec speaks only of
"the schema's primary type"; it is modelled as the declared `type`, taking
the first entry when `type` is an array of type names.  `SchemaKind` values
are string constants (`"object"`, `"array"`, ...). -/
def getPrimaryType (typeField : Option JsonValue) : Option String :=
  match typeField with
  | some (.str t) => some t
  | some (.arr (.str t :: _)) => some t
  | _ => none

/-- The slice of the compiled schema node (`metadata.schemaNode`) that
`SchemaRow.tsx` reads.  The guard helpers that interpret it
(`isArrayNodeWithItems`, `isRefNode`, `hasRefItems`, from `src/utils/guards`)
are outside this excerpt and are modelled from the spec below. -/
structure SchemaNodeM where
  typeField : Option JsonValue
  items : Option JSONSchema4OrArray
  annotations : Option JsDict
  validations : Option JsDict
  combiner : Option String
  isRef : Bool
  refItems : Bool
  deriving Repr, DecidableEq

/-- Modelled from the spec: `isArrayNodeWithItems` (from `src/utils/guards`,
outside this excerpt) — "resolving through array-items indirection if the
parent is an array": an array node that declares `items`. -/
def isArrayNodeWithItems (schemaNode : SchemaNodeM) : Bool :=
  getPrimaryType schemaNode.typeField = some "array" && schemaNode.items.isSome

/-- Modelled from the spec: `isRefNode` (from `src/utils/guards`, outside
this excerpt) — "true if the node's schema is a `$ref` node". -/
def isRefNode (schemaNode : SchemaNodeM) : Bool :=
  schemaNode.isRef

/-- Modelled from the spec: `hasRefItems` (from `src/utils/guards`, outside
this excerpt) — "an array node whose `items` contains `$ref` nodes". -/
def hasRefItems (schemaNode : SchemaNodeM) : Bool :=
  schemaNode.refItems

/-- The metadata attached to a tree node (spec: "either a valid
`(schemaNode, path)` pair or an error descriptor"); the schema variant also
carries the raw `schema` fragment, read by `getRelevantSchemaForRequireCheck`. -/
inductive NodeMetadata where
  | schemaMeta (schemaNode : SchemaNodeM) (schema : JSONSchema4)
      (path : List JsonValue) : NodeMetadata
  | errorMeta (error : String) : NodeMetadata
  deriving Repr, DecidableEq

/-- The `node.metadata` field of a tree-list node (typed `unknown`); the tree
builder stores the combiner candidate list under its `properties` key.
`properties := none` models an object without that key (so reading it yields
`undefined`). -/
structure TreeNodeMetaField where
  properties : Option (List JSONSchema4)
  deriving Repr, DecidableEq

/-- A `TreeListNode` of the external tree-list library, restricted to what
this code reads: stable identity, the `metadata` field, the attached node
metadata (spec: stored per node by the tree builder; `none` models a node
the builder never attached metadata to), the optional `children` (present
exactly on parent nodes) and the parent link (`none` = the virtual root).
JS reference identity of nodes is modelled by `id`. -/
inductive TreeListNode where
  | mk (id : Nat) (metadataField : Option TreeNodeMetaField)
      (treeMeta : Option NodeMetadata)
      (children : Option (List TreeListNode))
      (parent : Option TreeListNode) : TreeListNode

/-- Node identity. -/
def TreeListNode.id : TreeListNode → Nat
  | .mk i _ _ _ _ => i

/-- The `node.metadata` field. -/
def TreeListNode.metadataField : TreeListNode → Option TreeNodeMetaField
  | .mk _ m _ _ _ => m

/-- The attached node metadata. -/
def TreeListNode.treeMeta : TreeListNode → Option NodeMetadata
  | .mk _ _ t _ _ => t

/-- The `children` member (`'children' in node` iff this is `some`). -/
def TreeListNode.children : TreeListNode → Option (List TreeListNode)
  | .mk _ _ _ c _ => c

/-- The parent link. -/
def TreeListNode.parent : TreeListNode → Option TreeListNode
  | .mk _ _ _ _ p => p

/-- `isParentNode` of the external tree-list library: the node has a
`children` member. -/
def isParentNode (node : TreeListNode) : Bool :=
  node.children.isSome

/-- `Tree.getLevel` of the external tree-list library: the virtual root
(no parent) has level `-1`; each child is one deeper. -/
def getLevel : TreeListNode → Int
  | .mk _ _ _ _ none => -1
  | .mk _ _ _ _ (some p) => getLevel p + 1

/-- Modelled from the spec: `getNodeMetadata` (from `src/tree/metadata`,
outside this excerpt) returns the metadata attached to the node and throws
when none was attached. -/
def getNodeMetadata (treeNode : TreeListNode) : Except String NodeMetadata :=
  match treeNode.treeMeta with
  | some m => Except.ok m
  | none => Except.error "the node has no metadata"

/-- Modelled from the spec: `getSchemaNodeMetadata` (from
`src/tree/metadata`, outside this excerpt) returns the
`(schemaNode, schema, path)` triple and throws when the node has no metadata
or carries an error placeholder. -/
def getSchemaNodeMetadata (treeNode : TreeListNode) :
    Except String (SchemaNodeM × JSONSchema4 × List JsonValue) :=
  match getNodeMetadata treeNode with
  | Except.ok (.schemaMeta schemaNode schema path) => Except.ok (schemaNode, schema, path)
  | Except.ok (.errorMeta _) => Except.error "the node has no schema metadata"
  | Except.error e => Except.error e

/-- `getRelevantSchemaForRequireCheck` (SchemaRow): `null` when the metadata
is the error variant, the schema node's `items` when it is an array node
with items, the raw schema otherwise.  Exceptions from `getNodeMetadata`
propagate. -/
def getRelevantSchemaForRequireCheck (treeNode : TreeListNode) :
    Except String (Option JSONSchema4OrArray) := do
  let metadata ← getNodeMetadata treeNode
  match metadata with
  | .errorMeta _ => return none
  | .schemaMeta schemaNode schema _ =>
    if isArrayNodeWithItems schemaNode then
      return schemaNode.items
    else
      return some (.single schema)

/-- The `try` body of `isRequired` (SchemaRow): read the node's path, give
up on an empty path, then test the parent's relevant schema: non-null, not
an array, primary type `object`, and a `required` array containing the
stringified last path segment. -/
def isRequiredBody (treeNode parent : TreeListNode) : Except String Bool := do
  let (_, _, path) ← getSchemaNodeMetadata treeNode
  if path.length = 0 then
    return false
  let schema ← getRelevantSchemaForRequireCheck parent
  match schema with
  | some (.single s) =>
    return (getPrimaryType s.type = some "object" : Bool) &&
      (match s.required with
       | some (.arr req) => req.contains (.str (jsToString (path.getLastD .null)))
       | _ => false)
  | _ => return false

/-- `isRequired` (SchemaRow): `false` for the root; otherwise the `try`
body, any thrown exception caught and turned into `false`. -/
def isRequired (treeNode : TreeListNode) : Bool :=
  match treeNode.parent with
  | none => false
  | some parent =>
    match isRequiredBody treeNode parent with
    | Except.ok b => b
    | Except.error _ => false

/-- `getCombinerOptions` (SchemaRow): when `node.metadata` is a non-null
object, read its `properties` key (`none` = `undefined` when the key is
absent); otherwise return `[]`. -/
def getCombinerOptions (node : TreeListNode) : Option (List JSONSchema4) :=
  match node.metadataField with
  | some m => m.properties
  | none => some []

/-- Modelled from the spec: the per-tree `ChoiceState` of
`src/tree/tree` (outside this excerpt) — "mapping from TreeNode identity →
selected branch index (integer, default 0)". -/
abbrev ChoiceState := List (Nat × Int)

/-- Modelled from the spec: `getChoiceForNode` — the stored index, default 0. -/
def getChoiceForNode (state : ChoiceState) (nodeId : Nat) : Int :=
  match state with
  | [] => 0
  | e :: rest => if e.1 = nodeId then e.2 else getChoiceForNode rest nodeId

/-- Modelled from the spec: `setChoiceForNode` — add/overwrite the entry. -/
def setChoiceForNode (state : ChoiceState) (nodeId : Nat) (index : Int) : ChoiceState :=
  (nodeId, index) :: state

/-- `Array.prototype.indexOf`: first index of the element, `-1` when absent.
(JS compares by reference; in the model, structural equality stands in for
it, and theorems that need injectivity assume the list has no duplicates.) -/
def jsIndexOf {α : Type} [DecidableEq α] (l : List α) (x : α) : Int :=
  match l with
  | [] => -1
  | y :: rest =>
    if y = x then 0
    else
      let r := jsIndexOf rest x
      if r = -1 then -1 else r + 1

/-- `array[i]` for a JS (possibly negative) index. -/
def jsArrayGet {α : Type} (l : List α) (i : Int) : Option α :=
  if i < 0 then none else l.get? i.toNat

/-- One call the combiner-selection handler makes on the schema tree.
`setChoiceForNode` and `populateCombiner` are methods of the `SchemaTree`
class (outside this excerpt), so they are recorded as effects;
`populateCombiner`'s first argument `addChildrenToTreeListNode(node)` (the
node converted to a parent node, outside this excerpt) is recorded by the
node's identity. -/
inductive RowEffect where
  | setChoiceEffect (nodeId : Nat) (index : Int) : RowEffect
  | populateCombinerEffect (nodeId : Nat) (branch : JSONSchema4)
      (path : List JsonValue) (eager : Bool) : RowEffect
  deriving Repr, DecidableEq

/-- The `onItemSelect` body of `SchemaPropertyRow` (SchemaRow lines
121-126): recover the index of the selected item, write it into the choice
state, then repopulate the node's children from the chosen branch with the
path extended by the index and `eager = false`.  `path` and `items` are the
component-scope bindings (`getSchemaNodeMetadata(node).path` and
`getCombinerOptions(node)`). -/
def onCombinerItemSelect (node : TreeListNode) (path : List JsonValue)
    (items : List JSONSchema4) (item : JSONSchema4) : List RowEffect :=
  let index := jsIndexOf items item
  [RowEffect.setChoiceEffect node.id index,
   RowEffect.populateCombinerEffect node.id item (path ++ [.num index]) false]

/-- What a successfully rendered `SchemaPropertyRow` shows (visual styling
dropped): the caret, the combiner divider, the text value on the
branch-select button (`none` when the select is not rendered), the
description, the required flag and the validations passed on. -/
structure PropertyRowView where
  caret : Bool
  divider : Option String
  selectButtonType : Option (Option JsonValue)
  description : Option JsonValue
  required : Bool
  validations : JsDict
  deriving Repr, DecidableEq

/-- `SchemaPropertyRow` (SchemaRow): reads the node's schema metadata
(throws on error placeholders — its caller guards this), resolves the
parent's schema node when the parent is a real node (a throw here
propagates), and evaluates the JSX.  When `node.metadata` is truthy the
branch-select button evaluates `items[chosenPropertyIndex].type`, which
throws a `TypeError` when `items` is `undefined` or the index is out of
range. -/
def renderSchemaPropertyRow (state : ChoiceState) (node : TreeListNode) :
    Except String PropertyRowView := do
  let (schemaNode, _, _) ← getSchemaNodeMetadata node
  let parentSchemaNode : Option SchemaNodeM ←
    match node.parent with
    | some p =>
      if getLevel p ≥ 0 then do
        let (psn, _, _) ← getSchemaNodeMetadata p
        pure (some psn)
      else pure none
    | none => pure none
  let description : Option JsonValue :=
    match schemaNode.annotations with
    | some ann => jsLookup ann "description"
    | none => none
  let hasDollarRef := isRefNode schemaNode ||
    (getPrimaryType schemaNode.typeField = some "array" && hasRefItems schemaNode)
  let chosenPropertyIndex := getChoiceForNode state node.id
  let items := getCombinerOptions node
  let caret := hasDollarRef || (isParentNode node && getLevel node > 0)
  let divider : Option String :=
    match node.parent, parentSchemaNode with
    | some p, some psn =>
      if ((p.children.getD []).length > 0 : Bool) && psn.combiner.isSome &&
          (((p.children.getD []).head?.map TreeListNode.id ≠ some node.id : Bool)) then
        psn.combiner
      else none
    | _, _ => none
  let selectButtonType : Option (Option JsonValue) ←
    if node.metadataField.isSome then
      match items with
      | none =>
        throw "TypeError: cannot read properties of undefined (reading the index)"
      | some itemList =>
        match jsArrayGet itemList chosenPropertyIndex with
        | some chosenItem => pure (some chosenItem.type)
        | none =>
          throw "TypeError: cannot read properties of undefined (reading type)"
    else pure none
  let defaultPart : JsDict :=
    match schemaNode.annotations with
    | some ann =>
      match jsLookup ann "default" with
      | some d => if jsTruthy d then [("default", d)] else []
      | none => []
    | none => []
  let validations := jsMerge defaultPart (schemaNode.validations.getD [])
  return { caret := caret, divider := divider,
           selectButtonType := selectButtonType, description := description,
           required := isRequired node, validations := validations }

/-- What `SchemaRow` renders for one node: a normal property row or the
dedicated error row. -/
inductive RenderedRow where
  | property (view : PropertyRowView) : RenderedRow
  | errorRow (message : String) : RenderedRow
  deriving Repr, DecidableEq

/-- `SchemaErrorRow` (SchemaRow): displays the error message. -/
def renderSchemaErrorRow (message : String) : RenderedRow :=
  RenderedRow.errorRow message

/-- `SchemaRow` (SchemaRow): reads the node metadata (a throw propagates),
then renders the property row when it is the schema variant and the error
row when it is the error placeholder. -/
def renderSchemaRow (state : ChoiceState) (node : TreeListNode) :
    Except String RenderedRow := do
  let metadata ← getNodeMetadata node
  match metadata with
  | .schemaMeta .. => do
    let view ← renderSchemaPropertyRow state node
    return RenderedRow.property view
  | .errorMeta e => return renderSchemaErrorRow e

/-- The tree host's row rendering: the virtualized list renders each row by
an independent call of the row renderer. -/
def renderRows (state : ChoiceState) (nodes : List TreeListNode) :
    List (Except String RenderedRow) :=
  nodes.map (renderSchemaRow state)

/-- Modelled from the spec: `toggleExpand` of the external tree store flips
the clicked node's expansion flag and nothing else.  Expansion state is the
set of expanded node identities. -/
def toggleExpand (expanded : List Nat) (nodeId : Nat) : List Nat :=
  if expanded.contains nodeId then expanded.filter (fun i => !(i = nodeId : Bool))
  else nodeId :: expanded

/-- The `NodeClick` subscription of `SchemaTree` (tree host): toggle the
expansion only when `'children' in node`. -/
def applyNodeClick (expanded : List Nat) (node : TreeListNode) : List Nat :=
  if node.children.isSome then toggleExpand expanded node.id else expanded

/-- A call the node-click handler makes on the external tree store. -/
inductive TreeEffect where
  | toggleExpandEffect (nodeId : Nat) : TreeEffect
  deriving Repr, DecidableEq

/-- The calls the `NodeClick` handler of `SchemaTree` makes: `toggleExpand`
on the clicked node exactly when `'children' in node`. -/
def nodeClickEffects (node : TreeListNode) : List TreeEffect :=
  if node.children.isSome then [TreeEffect.toggleExpandEffect node.id] else []

/-! ## Spec-side comparison definitions -/

/-- The numeric badge templates as this development's reading of the spec's
"fixed symbolic template per key", written with the ASCII comparison signs
the code emits (the spec text prints them as `≥`/`≤`). Used to compare the
rendered badge text against a per-key template. -/
def specNumberTemplate (key : String) (value : JsonValue) : String :=
  if key = "minimum" then ">= " ++ jsToString value
  else if key = "exclusiveMinimum" then "> " ++ jsToString value
  else if key = "minItems" then ">= " ++ jsToString value ++ " items"
  else if key = "minLength" then ">= " ++ jsToString value ++ " characters"
  else if key = "maximum" then "<= " ++ jsToString value
  else if key = "exclusiveMaximum" then "< " ++ jsToString value
  else if key = "maxItems" then "<= " ++ jsToString value ++ " items"
  else if key = "maxLength" then "<= " ++ jsToString value ++ " characters"
  else ""

/-! ## Concrete instances used by witnesses and counterexamples -/

/-- An `int32` node whose `minimum` equals the implied value and whose
`maximum` differs from it. -/
def exInt32Node : RegularNode :=
  { enumValues := none, annotations := none, format := some "int32",
    validations := [("minimum", .num (0 - 2 ^ 31)), ("maximum", .num 5)] }

/-- A node whose annotations carry `default: 0` — present but falsy. -/
def exDefaultZeroNode : RegularNode :=
  { enumValues := none, annotations := some [("default", .num 0)],
    format := none, validations := [] }

/-- A node declaring only `minimum` and `maximum`. -/
def exMinMaxNode : RegularNode :=
  { enumValues := none, annotations := none, format := none,
    validations := [("minimum", .num 1), ("maximum", .num 2)] }

/-- A compiled schema node with no interesting content. -/
def exPlainSchemaNode : SchemaNodeM :=
  { typeField := some (.str "string"), items := none, annotations := none,
    validations := none, combiner := none, isRef := false, refItems := false }

/-- An object schema requiring `id`. -/
def exObjectSchema : JSONSchema4 :=
  { type := some (.str "object"), required := some (.arr [.str "id"]) }

/-- The compiled node for `exObjectSchema`. -/
def exObjectSchemaNode : SchemaNodeM :=
  { typeField := some (.str "object"), items := none, annotations := none,
    validations := none, combiner := none, isRef := false, refItems := false }

/-- A tree node for the object parent (a top-level node: its parent is the
virtual root). -/
def exObjectParent : TreeListNode :=
  .mk 0 none (some (.schemaMeta exObjectSchemaNode exObjectSchema []))
    (some []) (some (.mk 100 none none (some []) none))

/-- The child tree node at path `["id"]` under `exObjectParent`. -/
def exRequiredChild : TreeListNode :=
  .mk 1 none
    (some (.schemaMeta exPlainSchemaNode
      { type := some (.str "string"), required := none } [.str "id"]))
    none (some exObjectParent)

/-- A root tree node (no parent). -/
def exRootNode : TreeListNode :=
  .mk 2 none (some (.schemaMeta exPlainSchemaNode exObjectSchema [])) (some []) none

/-- Two distinct combiner branch schemas. -/
def exBranchString : JSONSchema4 :=
  { type := some (.str "string"), required := none }

/-- Second combiner branch. -/
def exBranchNumber : JSONSchema4 :=
  { type := some (.str "number"), required := none }

/-- A combiner tree node offering the two branches, at path `["value"]`. -/
def exCombinerNode : TreeListNode :=
  .mk 3 (some { properties := some [exBranchString, exBranchNumber] })
    (some (.schemaMeta exPlainSchemaNode exBranchString [.str "value"]))
    (some []) none

/-- A tree node with schema metadata whose `node.metadata` object carries an
empty combiner candidate list. -/
def exEmptyCombinerNode : TreeListNode :=
  .mk 5 (some { properties := some [] })
    (some (.schemaMeta exPlainSchemaNode exBranchString [.str "x"]))
    none none

/-- A tree node carrying an error placeholder instead of schema metadata. -/
def exErrorNode : TreeListNode :=
  .mk 6 none (some (.errorMeta "invalid schema subtree")) none none

/-- A leaf tree node (no `children` member). -/
def exLeafNode : TreeListNode :=
  .mk 7 none none none none

/-- A parent tree node (has a `children` member). -/
def exParentNode : TreeListNode :=
  .mk 8 none none (some []) none

/-- The validation mapping of the spec's badge-order scenario. -/
def exValsDict : JsDict :=
  [("minimum", .num 1), ("enum", .arr [.str "a", .str "b"]), ("readOnly", .bool true)]

/-- A node with a non-null enum, a truthy `default` annotation and one
declared validation. -/
def exAnnotatedNode : RegularNode :=
  { enumValues := some [.str "a"], annotations := some [("default", .num 3)],
    format := none, validations := [("minimum", .num 1)] }

/-! ## Dictionary lemmas -/

theorem jsLookup_eq_none_iff (d : JsDict) (k : String) :
    jsLookup d k = none ↔ k ∉ jsKeys d := by
  induction d with
  | nil => simp [jsLookup, jsKeys]
  | cons e rest ih =>
    by_cases h : e.1 = k
    all_goals simp [jsLookup, jsKeys, h, ih]
    all_goals tauto

theorem jsLookup_isSome_iff (d : JsDict) (k : String) :
    (jsLookup d k).isSome = true ↔ k ∈ jsKeys d := by
  rw [Option.isSome_iff_ne_none, ne_eq, jsLookup_eq_none_iff]
  tauto

theorem jsDelete_cons_hit (e : String × JsonValue) (rest : JsDict) (k : String)
    (h : e.1 = k) : jsDelete (e :: rest) k = jsDelete rest k := by
  simp [jsDelete, List.filter_cons, h]

theorem jsDelete_cons_miss (e : String × JsonValue) (rest : JsDict) (k : String)
    (h : ¬(e.1 = k)) : jsDelete (e :: rest) k = e :: jsDelete rest k := by
  simp [jsDelete, List.filter_cons, h]

theorem jsLookup_jsDelete_self (d : JsDict) (k : String) :
    jsLookup (jsDelete d k) k = none := by
  induction d with
  | nil => rfl
  | cons e rest ih =>
    by_cases h : e.1 = k
    · rw [jsDelete_cons_hit e rest k h, ih]
    · rw [jsDelete_cons_miss e rest k h]
      simp only [jsLookup, if_neg h, ih]

theorem jsLookup_jsDelete_ne (d : JsDict) (k2 k : String) (h : k2 ≠ k) :
    jsLookup (jsDelete d k2) k = jsLookup d k := by
  induction d with
  | nil => rfl
  | cons e rest ih =>
    by_cases he : e.1 = k2
    · have hek : ¬(e.1 = k) := fun hc => h (he ▸ hc)
      rw [jsDelete_cons_hit e rest k2 he, ih]
      simp only [jsLookup, if_neg hek]
    · rw [jsDelete_cons_miss e rest k2 he]
      by_cases hk : e.1 = k <;> simp only [jsLookup, hk, if_pos, if_neg, ih]

theorem jsLookup_oasFilterStep_ne (d : JsDict) (kv : String × JsonValue) (k : String)
    (h : kv.1 ≠ k) : jsLookup (oasFilterStep d kv) k = jsLookup d k := by
  unfold oasFilterStep
  split
  · exact jsLookup_jsDelete_ne d kv.1 k h
  · rfl

theorem jsLookup_foldl_oasFilterStep_notin (entries : JsDict) (d : JsDict) (k : String)
    (h : k ∉ entries.map Prod.fst) :
    jsLookup (entries.foldl oasFilterStep d) k = jsLookup d k := by
  induction entries generalizing d with
  | nil => rfl
  | cons e rest ih =>
    simp only [List.map_cons, List.mem_cons, not_or] at h
    rw [List.foldl_cons, ih (oasFilterStep d e) h.2,
      jsLookup_oasFilterStep_ne d e k (fun he => h.1 he.symm)]

theorem jsLookup_foldl_oasFilterStep_mem (entries : JsDict) (d : JsDict)
    (k : String) (impl : JsonValue)
    (hnd : (entries.map Prod.fst).Nodup) (hmem : (k, impl) ∈ entries) :
    (jsLookup d k = some impl → jsLookup (entries.foldl oasFilterStep d) k = none) ∧
    (∀ w, jsLookup d k = some w → w ≠ impl →
      jsLookup (entries.foldl oasFilterStep d) k = some w) := by
  induction entries generalizing d with
  | nil => simp at hmem
  | cons e rest ih =>
    rw [List.map_cons, List.nodup_cons] at hnd
    rcases List.mem_cons.mp hmem with he | hrest
    · subst he
      have hnotin : k ∉ rest.map Prod.fst := hnd.1
      constructor
      · intro heq
        have hstep : oasFilterStep d (k, impl) = jsDelete d k := by
          simp [oasFilterStep, heq]
        rw [List.foldl_cons, hstep,
          jsLookup_foldl_oasFilterStep_notin rest (jsDelete d k) k hnotin,
          jsLookup_jsDelete_self]
      · intro w heq hne
        have hstep : oasFilterStep d (k, impl) = d := by
          unfold oasFilterStep
          rw [heq, if_neg (fun hc => hne (Option.some.inj hc))]
        rw [List.foldl_cons, hstep,
          jsLookup_foldl_oasFilterStep_notin rest d k hnotin, heq]
    · have hkmem : k ∈ rest.map Prod.fst :=
        List.mem_map.mpr ⟨(k, impl), hrest, rfl⟩
      have hne : e.1 ≠ k := fun hc => hnd.1 (hc ▸ hkmem)
      have hpres := jsLookup_oasFilterStep_ne d e k hne
      have := ih (oasFilterStep d e) hnd.2 hrest
      constructor
      · intro heq
        rw [List.foldl_cons]
        exact this.1 (hpres.trans heq)
      · intro w heq hw
        rw [List.foldl_cons]
        exact this.2 w (hpres.trans heq) hw

theorem jsKeys_jsDelete_subset (d : JsDict) (k2 k : String)
    (h : k ∈ jsKeys (jsDelete d k2)) : k ∈ jsKeys d := by
  rcases List.mem_map.mp h with ⟨e, he, rfl⟩
  exact List.mem_map.mpr ⟨e, (List.mem_filter.mp he).1, rfl⟩

theorem jsKeys_oasFilterStep_subset (d : JsDict) (kv : String × JsonValue) (k : String)
    (h : k ∈ jsKeys (oasFilterStep d kv)) : k ∈ jsKeys d := by
  unfold oasFilterStep at h
  split at h
  · exact jsKeys_jsDelete_subset d kv.1 k h
  · exact h

theorem jsKeys_foldl_oasFilterStep_subset (entries : JsDict) (d : JsDict) (k : String)
    (h : k ∈ jsKeys (entries.foldl oasFilterStep d)) : k ∈ jsKeys d := by
  induction entries generalizing d with
  | nil => exact h
  | cons e rest ih =>
    rw [List.foldl_cons] at h
    exact jsKeys_oasFilterStep_subset d e k (ih (oasFilterStep d e) h)

theorem jsKeys_getFilteredValidations_subset (n : RegularNode) (k : String)
    (h : k ∈ jsKeys (getFilteredValidations n)) : k ∈ jsKeys n.validations := by
  unfold getFilteredValidations at h
  split at h
  · unfold filterOutOasFormatValidations at h
    split at h
    · exact h
    · exact jsKeys_foldl_oasFilterStep_subset _ _ _ h
  · exact h

theorem jsLookup_append_of_none (a b : JsDict) (k : String)
    (h : jsLookup a k = none) : jsLookup (a ++ b) k = jsLookup b k := by
  induction a with
  | nil => rfl
  | cons e rest ih =>
    by_cases he : e.1 = k <;> simp [jsLookup, he] at h ⊢
    exact ih h

theorem jsLookup_append_of_some (a b : JsDict) (k : String) (v : JsonValue)
    (h : jsLookup a k = some v) : jsLookup (a ++ b) k = some v := by
  induction a with
  | nil => simp [jsLookup] at h
  | cons e rest ih =>
    by_cases he : e.1 = k <;> simp [jsLookup, he] at h ⊢
    · exact h
    · exact ih h

theorem jsLookup_map_override (a b : JsDict) (k : String) :
    jsLookup (a.map (fun e => (e.1, (jsLookup b e.1).getD e.2))) k =
      (jsLookup a k).map (fun v => (jsLookup b k).getD v) := by
  induction a with
  | nil => rfl
  | cons e rest ih =>
    by_cases he : e.1 = k
    · subst he
      simp [jsLookup]
    · simp [jsLookup, he, ih]

theorem jsLookup_filter_key (b : JsDict) (p : String → Bool) (k : String) :
    jsLookup (b.filter (fun e => p e.1)) k =
      if p k then jsLookup b k else none := by
  induction b with
  | nil => simp [jsLookup]
  | cons e rest ih =>
    by_cases he : e.1 = k
    · subst he
      by_cases hp : p e.1 <;> simp [List.filter, jsLookup, hp, ih]
    · by_cases hp : p e.1 <;> simp [List.filter, jsLookup, hp, he, ih]

theorem jsLookup_jsMerge_left_notin (a b : JsDict) (k : String)
    (h : k ∉ jsKeys a) : jsLookup (jsMerge a b) k = jsLookup b k := by
  have ha : jsLookup a k = none := (jsLookup_eq_none_iff a k).mpr h
  have h1 : jsLookup (a.map (fun e => (e.1, (jsLookup b e.1).getD e.2))) k = none := by
    rw [jsLookup_map_override, ha]; rfl
  have h2 : jsLookup (b.filter (fun e => !((jsKeys a).contains e.1))) k = jsLookup b k := by
    have h3 := jsLookup_filter_key b (fun s => !((jsKeys a).contains s)) k
    rw [if_pos (by simpa using h)] at h3
    exact h3
  unfold jsMerge
  rw [jsLookup_append_of_none _ _ _ h1, h2]

theorem jsLookup_jsMerge_of_some_right (a b : JsDict) (k : String) (w : JsonValue)
    (h : jsLookup b k = some w) : jsLookup (jsMerge a b) k = some w := by
  cases ha : jsLookup a k with
  | none =>
    have hnotin : k ∉ jsKeys a := (jsLookup_eq_none_iff a k).mp ha
    rw [jsLookup_jsMerge_left_notin a b k hnotin, h]
  | some v =>
    unfold jsMerge
    apply jsLookup_append_of_some
    rw [jsLookup_map_override, ha, h]
    rfl

theorem jsLookup_filter_of_none (b : JsDict) (p : String × JsonValue → Bool) (k : String)
    (h : jsLookup b k = none) : jsLookup (b.filter p) k = none := by
  induction b with
  | nil => rfl
  | cons e rest ih =>
    by_cases he : e.1 = k
    · simp [jsLookup, he] at h
    · simp only [jsLookup, if_neg he] at h
      rcases hp : p e with _ | _ <;> simp [List.filter_cons, hp, jsLookup, he, ih h]

theorem jsLookup_jsMerge_right_notin (a b : JsDict) (k : String)
    (h : k ∉ jsKeys b) : jsLookup (jsMerge a b) k = jsLookup a k := by
  have hb : jsLookup b k = none := (jsLookup_eq_none_iff b k).mpr h
  cases ha : jsLookup a k with
  | none =>
    have hnotin : k ∉ jsKeys a := (jsLookup_eq_none_iff a k).mp ha
    rw [jsLookup_jsMerge_left_notin a b k hnotin, hb]
  | some v =>
    unfold jsMerge
    apply jsLookup_append_of_some
    rw [jsLookup_map_override, ha, hb]
    rfl

theorem jsLookup_enumPart_ne (n : RegularNode) (k : String) (h : k ≠ "enum") :
    jsLookup (enumPart n) k = none := by
  have hne : ¬("enum" = k) := fun hc => h hc.symm
  unfold enumPart
  split <;> simp [jsLookup, hne]

theorem jsLookup_annotationsPart_ne (n : RegularNode) (k : String)
    (h2 : k ≠ "default") (h3 : k ≠ "examples") :
    jsLookup (annotationsPart n) k = none := by
  have hd : ¬("default" = k) := fun hc => h2 hc.symm
  have he : ¬("examples" = k) := fun hc => h3 hc.symm
  unfold annotationsPart
  split
  · rw [jsLookup_append_of_none]
    · split
      · split <;> simp [jsLookup, he]
      · rfl
    · split
      · split <;> simp [jsLookup, hd]
      · rfl
  · rfl

theorem jsLookup_pre_of_ne (n : RegularNode) (k : String)
    (h1 : k ≠ "enum") (h2 : k ≠ "default") (h3 : k ≠ "examples") :
    jsLookup (enumPart n ++ annotationsPart n) k = none := by
  rw [jsLookup_append_of_none _ _ _ (jsLookup_enumPart_ne n k h1)]
  exact jsLookup_annotationsPart_ne n k h2 h3

theorem getFilteredValidations_of_known (n : RegularNode) (f : String) (entries : JsDict)
    (hf : n.format = some f) (hof : oasFormats f = some entries) :
    getFilteredValidations n = entries.foldl oasFilterStep n.validations := by
  simp only [getFilteredValidations, hf, filterOutOasFormatValidations, hof]

theorem c1_core (n : RegularNode) (f : String) (entries : JsDict)
    (k : String) (impl : JsonValue)
    (hf : n.format = some f) (hof : oasFormats f = some entries)
    (hnd : (entries.map Prod.fst).Nodup) (hmem : (k, impl) ∈ entries)
    (h1 : k ≠ "enum") (h2 : k ≠ "default") (h3 : k ≠ "examples") :
    (jsLookup n.validations k = some impl →
      jsLookup (getValidationsFromSchema n) k = none) ∧
    (∀ w, jsLookup n.validations k = some w → w ≠ impl →
      jsLookup (getValidationsFromSchema n) k = some w) := by
  have hfold := jsLookup_foldl_oasFilterStep_mem entries n.validations k impl hnd hmem
  have hfiltered := getFilteredValidations_of_known n f entries hf hof
  have hprenone := jsLookup_pre_of_ne n k h1 h2 h3
  have hprenotin : k ∉ jsKeys (enumPart n ++ annotationsPart n) :=
    (jsLookup_eq_none_iff _ k).mp hprenone
  constructor
  · intro heq
    unfold getValidationsFromSchema
    rw [jsLookup_jsMerge_left_notin _ _ _ hprenotin, hfiltered]
    exact hfold.1 heq
  · intro w heq hw
    unfold getValidationsFromSchema
    apply jsLookup_jsMerge_of_some_right
    rw [hfiltered]
    exact hfold.2 w heq hw

/-! ## Claim C1 -/

set_option maxRecDepth 8000

/-- C1: for every schema node that declares a named format with known
implied values (`int32`, `int64`, `float`, `double` imply numeric
minimum/maximum; `byte` implies a base64 pattern), the extracted validation
mapping contains no entry whose value exactly equals the format's implied
value, while entries whose values differ from the implied value are kept;
for a format not in the known set, all declared validations are kept
unchanged. -/
theorem c1_format_implied_validations_dropped :
    (∀ (n : RegularNode) (f : String) (entries : JsDict) (k : String) (impl : JsonValue),
      n.format = some f → oasFormats f = some entries → (k, impl) ∈ entries →
        ((jsLookup n.validations k = some impl →
            jsLookup (getValidationsFromSchema n) k = none) ∧
         (∀ w, jsLookup n.validations k = some w → w ≠ impl →
            jsLookup (getValidationsFromSchema n) k = some w))) ∧
    (∀ (n : RegularNode) (f : String), n.format = some f → oasFormats f = none →
      getFilteredValidations n = n.validations ∧
      (∀ k w, jsLookup n.validations k = some w →
        jsLookup (getValidationsFromSchema n) k = some w)) := by
  constructor
  · intro n f entries k impl hf hof hmem
    have hof0 := hof
    unfold oasFormats at hof
    split_ifs at hof with hf1 hf2 hf3 hf4 hf5
    · obtain rfl : entries = _ := (Option.some.inj hof).symm
      simp only [List.mem_cons, List.not_mem_nil, or_false, Prod.mk.injEq] at hmem
      rcases hmem with ⟨rfl, rfl⟩ | ⟨rfl, rfl⟩
      · exact c1_core n f _ _ _ hf hof0 (by decide) (by decide)
          (by decide) (by decide) (by decide)
      · exact c1_core n f _ _ _ hf hof0 (by decide) (by decide)
          (by decide) (by decide) (by decide)
    · obtain rfl : entries = _ := (Option.some.inj hof).symm
      simp only [List.mem_cons, List.not_mem_nil, or_false, Prod.mk.injEq] at hmem
      rcases hmem with ⟨rfl, rfl⟩ | ⟨rfl, rfl⟩
      · exact c1_core n f _ _ _ hf hof0 (by decide) (by decide)
          (by decide) (by decide) (by decide)
      · exact c1_core n f _ _ _ hf hof0 (by decide) (by decide)
          (by decide) (by decide) (by decide)
    · obtain rfl : entries = _ := (Option.some.inj hof).symm
      simp only [List.mem_cons, List.not_mem_nil, or_false, Prod.mk.injEq] at hmem
      rcases hmem with ⟨rfl, rfl⟩ | ⟨rfl, rfl⟩
      · exact c1_core n f _ _ _ hf hof0 (by decide) (by decide)
          (by decide) (by decide) (by decide)
      · exact c1_core n f _ _ _ hf hof0 (by decide) (by decide)
          (by decide) (by decide) (by decide)
    · obtain rfl : entries = _ := (Option.some.inj hof).symm
      simp only [List.mem_cons, List.not_mem_nil, or_false, Prod.mk.injEq] at hmem
      rcases hmem with ⟨rfl, rfl⟩ | ⟨rfl, rfl⟩
      · exact c1_core n f _ _ _ hf hof0 (by decide) (by decide)
          (by decide) (by decide) (by decide)
      · exact c1_core n f _ _ _ hf hof0 (by decide) (by decide)
          (by decide) (by decide) (by decide)
    · obtain rfl : entries = _ := (Option.some.inj hof).symm
      simp only [List.mem_cons, List.not_mem_nil, or_false, Prod.mk.injEq] at hmem
      rcases hmem with ⟨rfl, rfl⟩
      exact c1_core n f _ _ _ hf hof0 (by decide) (by decide)
        (by decide) (by decide) (by decide)
  · intro n f hf hof
    have hkeep : getFilteredValidations n = n.validations := by
      simp only [getFilteredValidations, hf, filterOutOasFormatValidations, hof]
    refine ⟨hkeep, ?_⟩
    intro k w hw
    unfold getValidationsFromSchema
    apply jsLookup_jsMerge_of_some_right
    rw [hkeep]
    exact hw

/-- Witness for C1: on the concrete `int32` node, the implied `minimum` is
dropped from the extracted mapping and the differing `maximum` is kept. -/
theorem c1_format_implied_validations_dropped_witness :
    jsLookup (getValidationsFromSchema exInt32Node) "minimum" = none ∧
    jsLookup (getValidationsFromSchema exInt32Node) "maximum" = some (.num 5) := by
  constructor
  · exact (c1_format_implied_validations_dropped.1 exInt32Node "int32"
      [("minimum", JsonValue.num (0 - 2 ^ 31)), ("maximum", JsonValue.num (2 ^ 31 - 1))]
      "minimum" (JsonValue.num (0 - 2 ^ 31))
      rfl (by decide) (by decide)).1 (by decide)
  · exact (c1_format_implied_validations_dropped.1 exInt32Node "int32"
      [("minimum", JsonValue.num (0 - 2 ^ 31)), ("maximum", JsonValue.num (2 ^ 31 - 1))]
      "maximum" (JsonValue.num (2 ^ 31 - 1))
      rfl (by decide) (by decide)).2 (.num 5) (by decide) (by decide)

/-! ## Claim C7 -/

theorem jsLookup_annotationsPart_default (n : RegularNode) :
    jsLookup (annotationsPart n) "default" =
      (match n.annotations with
       | some ann =>
         (match jsLookup ann "default" with
          | some d => if jsTruthy d then some d else none
          | none => none)
       | none => none) := by
  cases han : n.annotations with
  | none => simp [annotationsPart, han, jsLookup]
  | some ann =>
    simp only [annotationsPart, han]
    cases hd : jsLookup ann "default" with
    | none =>
      cases he : jsLookup ann "examples" with
      | none => simp [jsLookup]
      | some e2 =>
        by_cases ht : jsTruthy e2 <;> simp [ht, jsLookup]
    | some d =>
      by_cases ht : jsTruthy d
      · simp [ht, jsLookup]
      · simp only [ht, Bool.false_eq_true, if_false, List.nil_append]
        cases he : jsLookup ann "examples" with
        | none => simp [jsLookup]
        | some e2 =>
          by_cases ht2 : jsTruthy e2 <;> simp [ht2, jsLookup]

theorem jsLookup_annotationsPart_examples (n : RegularNode) :
    jsLookup (annotationsPart n) "examples" =
      (match n.annotations with
       | some ann =>
         (match jsLookup ann "examples" with
          | some e2 => if jsTruthy e2 then some e2 else none
          | none => none)
       | none => none) := by
  cases han : n.annotations with
  | none => simp [annotationsPart, han, jsLookup]
  | some ann =>
    simp only [annotationsPart, han]
    cases hd : jsLookup ann "default" with
    | none =>
      cases he : jsLookup ann "examples" with
      | none => simp [jsLookup]
      | some e2 =>
        by_cases ht : jsTruthy e2 <;> simp [ht, jsLookup]
    | some d =>
      by_cases ht : jsTruthy d
      · simp only [ht, if_true, if_pos]
        cases he : jsLookup ann "examples" with
        | none => simp [jsLookup]
        | some e2 =>
          by_cases ht2 : jsTruthy e2 <;> simp [ht2, jsLookup]
      · simp only [ht, Bool.false_eq_true, if_false, List.nil_append]
        cases he : jsLookup ann "examples" with
        | none => simp [jsLookup]
        | some e2 =>
          by_cases ht2 : jsTruthy e2 <;> simp [ht2, jsLookup]

/-- Counterexample for C7 as stated: on `exDefaultZeroNode` the annotation
`default: 0` is present, yet the extracted mapping has no `default` key —
the code includes the key only when the annotation value is truthy. -/
theorem c7_presence_iff_counterexample :
    (∃ ann, exDefaultZeroNode.annotations = some ann ∧
      jsLookup ann "default" = some (.num 0)) ∧
    jsLookup (getValidationsFromSchema exDefaultZeroNode) "default" = none := by
  exact ⟨⟨[("default", .num 0)], rfl, rfl⟩, by decide⟩

/-- C7 as amended: provided the declared validation facts do not themselves
use the names `enum`/`default`/`examples` (they are the min/max/pattern/...
facts), the extracted mapping binds `enum` exactly when the node's enum is
non-null, and binds `default`/`examples` exactly when the annotation is
present with a truthy value. -/
theorem c7_enum_default_examples_keys (n : RegularNode)
    (hv : ∀ k ∈ jsKeys n.validations, k ≠ "enum" ∧ k ≠ "default" ∧ k ≠ "examples") :
    (jsLookup (getValidationsFromSchema n) "enum" =
      (match n.enumValues with
       | some elems => some (.arr elems)
       | none => none)) ∧
    (jsLookup (getValidationsFromSchema n) "default" =
      (match n.annotations with
       | some ann =>
         (match jsLookup ann "default" with
          | some d => if jsTruthy d then some d else none
          | none => none)
       | none => none)) ∧
    (jsLookup (getValidationsFromSchema n) "examples" =
      (match n.annotations with
       | some ann =>
         (match jsLookup ann "examples" with
          | some e2 => if jsTruthy e2 then some e2 else none
          | none => none)
       | none => none)) := by
  have hfil : ∀ k, k = "enum" ∨ k = "default" ∨ k = "examples" →
      k ∉ jsKeys (getFilteredValidations n) := by
    intro k hk hmem
    have := hv k (jsKeys_getFilteredValidations_subset n k hmem)
    rcases hk with rfl | rfl | rfl
    · exact this.1 rfl
    · exact this.2.1 rfl
    · exact this.2.2 rfl
  refine ⟨?_, ?_, ?_⟩
  · unfold getValidationsFromSchema
    rw [jsLookup_jsMerge_right_notin _ _ _ (hfil "enum" (Or.inl rfl))]
    cases hev : n.enumValues with
    | none =>
      rw [jsLookup_append_of_none _ _ _ (by simp [enumPart, hev, jsLookup])]
      exact jsLookup_annotationsPart_ne n "enum" (by decide) (by decide)
    | some elems =>
      exact jsLookup_append_of_some _ _ _ _ (by simp [enumPart, hev, jsLookup])
  · unfold getValidationsFromSchema
    rw [jsLookup_jsMerge_right_notin _ _ _ (hfil "default" (Or.inr (Or.inl rfl)))]
    rw [jsLookup_append_of_none _ _ _ (jsLookup_enumPart_ne n "default" (by decide))]
    exact jsLookup_annotationsPart_default n
  · unfold getValidationsFromSchema
    rw [jsLookup_jsMerge_right_notin _ _ _ (hfil "examples" (Or.inr (Or.inr rfl)))]
    rw [jsLookup_append_of_none _ _ _ (jsLookup_enumPart_ne n "examples" (by decide))]
    exact jsLookup_annotationsPart_examples n

/-- Witness for C7 (amended): on `exAnnotatedNode` the extracted mapping
binds `enum` to the enum array and `default` to the truthy annotation. -/
theorem c7_enum_default_examples_keys_witness :
    jsLookup (getValidationsFromSchema exAnnotatedNode) "enum" =
      some (.arr [.str "a"]) ∧
    jsLookup (getValidationsFromSchema exAnnotatedNode) "default" =
      some (.num 3) := by
  have h := c7_enum_default_examples_keys exAnnotatedNode (by decide)
  exact ⟨h.1, h.2.1⟩

/-! ## Claim C10 -/

theorem toFinset_filter_ne {α : Type} [DecidableEq α] (xs : List α) (x : α) :
    (xs.filter (fun y => !(y = x : Bool))).toFinset = xs.toFinset.erase x := by
  ext a
  simp [List.mem_filter, Finset.mem_erase, and_comm]

theorem card_insert_eq_erase_add_one {α : Type} [DecidableEq α] (s : Finset α) (x : α) :
    (insert x s).card = (s.erase x).card + 1 := by
  by_cases hx : x ∈ s
  · rw [Finset.insert_eq_self.mpr hx]
    exact (Finset.card_erase_add_one hx).symm
  · rw [Finset.card_insert_of_not_mem hx, Finset.erase_eq_of_not_mem hx]

theorem jsUniqAux_length_eq_card {α : Type} [DecidableEq α] (l : List α) (seen : List α) :
    (jsUniqAux seen l).length = (l.toFinset \ seen.toFinset).card := by
  induction l generalizing seen with
  | nil => simp [jsUniqAux]
  | cons x xs ih =>
    by_cases hx : seen.contains x
    · have hxm : x ∈ seen.toFinset := by
        rw [List.mem_toFinset]
        simpa using hx
      simp only [jsUniqAux, if_pos hx]
      rw [List.toFinset_cons, Finset.insert_sdiff_of_mem _ hxm, ih seen]
    · have hxm : x ∉ seen.toFinset := by
        rw [List.mem_toFinset]
        intro hmem
        exact hx (by simpa using hmem)
      simp only [jsUniqAux, if_neg hx, List.length_cons]
      rw [ih (x :: seen), List.toFinset_cons, List.toFinset_cons,
        Finset.sdiff_insert, Finset.insert_sdiff_of_not_mem _ hxm,
        card_insert_eq_erase_add_one]

theorem jsUniq_length_eq_card {α : Type} [DecidableEq α] (l : List α) :
    (jsUniq l).length = l.toFinset.card := by
  rw [jsUniq, jsUniqAux_length_eq_card]
  simp

/-- C10: `validationCount` equals the number of distinct validation kinds
of the extracted mapping after removing the excluded keys, numeric
validation names all counting as the one kind `"number"`; in particular a
node with only `minimum` and `maximum` counts 1. -/
theorem c10_validation_count_distinct_kinds :
    (∀ n : RegularNode, validationCount n =
      (((jsKeys (getValidationsFromSchema n)).filter
          (fun k => !(excludedValidations.contains k))).map
        (fun key => if numberValidationNames.contains key then "number" else key)).toFinset.card) ∧
    validationCount exMinMaxNode = 1 := by
  constructor
  · intro n
    exact jsUniq_length_eq_card _
  · decide

/-! ## Claim C6 -/

/-- Counterexample for C6 as stated: the badge rendered for `minimum: 1`
reads `">= 1"`, not the claimed `"≥ 1"` — the code's templates use the
ASCII comparison signs. -/
theorem c6_symbolic_template_counterexample :
    renderNumberValidations (numberValidationsOf [("minimum", JsonValue.num 1)]) =
      [RenderedBlock.numberBlock [">= 1"]] ∧ (">= 1" : String) ≠ "≥ 1" := by
  exact ⟨by decide, by decide⟩

theorem mem_numberValidationsOf_names (validations : JsDict)
    (e : String × JsonValue) (h : e ∈ numberValidationsOf validations) :
    e.1 ∈ numberValidationNames := by
  unfold numberValidationsOf at h
  rcases List.mem_filterMap.mp h with ⟨k, hk, hmap⟩
  rcases Option.map_eq_some'.mp hmap with ⟨val, _, rfl⟩
  exact hk

theorem formatter_eq_specNumberTemplate (k : String) (hk : k ∈ numberValidationNames)
    (val : JsonValue) :
    (numberValidationFormatters k val).getD "undefined" = specNumberTemplate k val := by
  fin_cases hk <;> rfl

/-- C6 as amended: for every entry in the numeric bucket the presenter
renders exactly one badge, the entry's text given by the fixed per-key
template `minimum → ">= v"`, `exclusiveMinimum → "> v"`,
`minItems → ">= v items"`, `minLength → ">= v characters"`,
`maximum → "<= v"`, `exclusiveMaximum → "< v"`, `maxItems → "<= v items"`,
`maxLength → "<= v characters"` (ASCII signs, as the code emits). -/
theorem c6_numeric_badge_templates (validations : JsDict) :
    (numberValidationsOf validations = [] →
      renderNumberValidations (numberValidationsOf validations) = []) ∧
    (numberValidationsOf validations ≠ [] →
      renderNumberValidations (numberValidationsOf validations) =
        [RenderedBlock.numberBlock ((numberValidationsOf validations).map
          (fun e => specNumberTemplate e.1 e.2))]) := by
  constructor
  · intro h
    simp [renderNumberValidations, h]
  · intro h
    have hlen : ¬((numberValidationsOf validations).length = 0) := by
      simpa [List.length_eq_zero] using h
    unfold renderNumberValidations
    rw [if_neg hlen]
    exact congrArg (fun l => [RenderedBlock.numberBlock l])
      (List.map_congr_left (fun e he =>
        formatter_eq_specNumberTemplate e.1 (mem_numberValidationsOf_names _ e he) e.2))

/-- Witness for C6 (amended): the `maxLength: 9` entry renders the single
badge `"<= 9 characters"`. -/
theorem c6_numeric_badge_templates_witness :
    renderNumberValidations (numberValidationsOf [("maxLength", JsonValue.num 9)]) =
      [RenderedBlock.numberBlock ["<= 9 characters"]] := by
  rw [(c6_numeric_badge_templates [("maxLength", JsonValue.num 9)]).2 (by decide)]
  decide

/-! ## Claim C4 -/

theorem jsLookup_eq_some_iff_mem (v : JsDict) (hnd : (jsKeys v).Nodup)
    (k : String) (val : JsonValue) :
    jsLookup v k = some val ↔ (k, val) ∈ v := by
  induction v with
  | nil => simp [jsLookup]
  | cons e rest ih =>
    obtain ⟨k1, v1⟩ := e
    rw [jsKeys, List.map_cons, List.nodup_cons] at hnd
    by_cases he : k1 = k
    · subst he
      have hcons : jsLookup ((k1, v1) :: rest) k1 = some v1 := by simp [jsLookup]
      rw [hcons, List.mem_cons]
      simp only [Prod.mk.injEq, true_and]
      constructor
      · intro h
        exact Or.inl (Option.some.inj h).symm
      · rintro (h | h)
        · rw [h]
        · exact absurd (List.mem_map.mpr ⟨(k1, val), h, rfl⟩) hnd.1
    · have hcons : jsLookup ((k1, v1) :: rest) k = jsLookup rest k := by
        simp [jsLookup, he]
      rw [hcons, List.mem_cons]
      simp only [Prod.mk.injEq]
      rw [ih hnd.2]
      constructor
      · exact Or.inr
      · rintro (⟨h, _⟩ | h)
        · exact absurd h.symm he
        · exact h

theorem mem_jsKeys_filter (v : JsDict) (p : String × JsonValue → Bool) (k : String) :
    k ∈ jsKeys (v.filter p) ↔ ∃ e ∈ v, e.1 = k ∧ p e = true := by
  simp only [jsKeys, List.mem_map, List.mem_filter]
  constructor
  · rintro ⟨e, ⟨hmem, hp⟩, rfl⟩
    exact ⟨e, hmem, rfl, hp⟩
  · rintro ⟨e, hmem, rfl, hp⟩
    exact ⟨e, ⟨hmem, hp⟩, rfl⟩

theorem mem_jsKeys_numberValidationsOf (v : JsDict) (k : String) :
    k ∈ jsKeys (numberValidationsOf v) ↔ k ∈ jsKeys v ∧ k ∈ numberValidationNames := by
  constructor
  · intro h
    rcases List.mem_map.mp h with ⟨e, he, heq⟩
    rcases List.mem_filterMap.mp he with ⟨k0, hk0, hmap⟩
    rcases Option.map_eq_some'.mp hmap with ⟨val, hval, hpe⟩
    subst hpe
    cases heq
    exact ⟨(jsLookup_isSome_iff v k0).mp (by simp [hval]), hk0⟩
  · rintro ⟨hkv, hkn⟩
    rcases Option.isSome_iff_exists.mp ((jsLookup_isSome_iff v k).mpr hkv) with ⟨val, hval⟩
    exact List.mem_map.mpr
      ⟨(k, val), List.mem_filterMap.mpr ⟨k, hkn, by simp [hval]⟩, rfl⟩

theorem mem_jsKeys_booleanValidationsOf (v : JsDict) (hnd : (jsKeys v).Nodup) (k : String) :
    k ∈ jsKeys (booleanValidationsOf v) ↔
      (∃ val, jsLookup v k = some val ∧
        (jsToString val = "true" ∨ jsToString val = "false")) ∧
      k ∉ excludedValidations := by
  unfold booleanValidationsOf
  rw [mem_jsKeys_filter]
  constructor
  · rintro ⟨e, hmem, rfl, hp2⟩
    have hmem2 := List.mem_filter.mp hmem
    refine ⟨⟨e.2, (jsLookup_eq_some_iff_mem v hnd e.1 e.2).mpr hmem2.1, ?_⟩, ?_⟩
    · simpa using hmem2.2
    · simpa using hp2
  · rintro ⟨⟨val, hlook, hval⟩, hex⟩
    have hmem := (jsLookup_eq_some_iff_mem v hnd k val).mp hlook
    exact ⟨(k, val), List.mem_filter.mpr ⟨hmem, by simpa using hval⟩, rfl, by simpa using hex⟩

theorem mem_jsKeys_keyValueValidationsOf (v : JsDict) (hide : Bool) (k : String) :
    k ∈ jsKeys (keyValueValidationsOf v hide) ↔
      k ∈ jsKeys v ∧ k ∉ jsKeys (numberValidationsOf v) ∧
      k ∉ jsKeys (booleanValidationsOf v) ∧ k ∉ excludedValidations ∧
      ¬(hide = true ∧ k ∈ exampleValidationNames) := by
  unfold keyValueValidationsOf
  rw [mem_jsKeys_filter]
  constructor
  · rintro ⟨e, hmem, rfl, hp⟩
    have hp2 : e.1 ∉ jsKeys (numberValidationsOf v) ∧
        e.1 ∉ jsKeys (booleanValidationsOf v) ∧
        e.1 ∉ excludedValidations ∧
        (hide = false ∨ e.1 ∉ exampleValidationNames) := by
      simpa [List.contains, not_or, and_assoc] using hp
    refine ⟨List.mem_map.mpr ⟨e, hmem, rfl⟩, hp2.1, hp2.2.1, hp2.2.2.1, ?_⟩
    rintro ⟨hh, hc⟩
    rcases hp2.2.2.2 with h5 | h5
    · rw [hh] at h5
      exact Bool.noConfusion h5
    · exact h5 hc
  · rintro ⟨hkv, h1, h2, h3, h4⟩
    rcases List.mem_map.mp hkv with ⟨e, hmem, heq⟩
    subst heq
    refine ⟨e, hmem, rfl, ?_⟩
    have h5 : hide = false ∨ e.1 ∉ exampleValidationNames := by
      rcases hide with _ | _
      · exact Or.inl rfl
      · exact Or.inr (fun hc => h4 ⟨rfl, hc⟩)
    have hgoal : e.1 ∉ jsKeys (numberValidationsOf v) ∧
        e.1 ∉ jsKeys (booleanValidationsOf v) ∧
        e.1 ∉ excludedValidations ∧
        (hide = false ∨ e.1 ∉ exampleValidationNames) := ⟨h1, h2, h3, h5⟩
    simpa [List.contains, not_or, and_assoc] using hgoal

/-- C4: the Validation Presenter partitions the mapping's keys into exactly
the three buckets — numeric iff the key is a numeric validation name,
boolean iff the value stringifies to `"true"`/`"false"` and the key is not
excluded, keyed otherwise minus excluded keys and minus `examples` when
`hideExamples` — and renders the numeric block first, then the keyed block,
then the boolean block. -/
theorem c4_partition_and_block_order (v : JsDict) (hideExamples : Bool)
    (hnd : (jsKeys v).Nodup) :
    renderValidations v hideExamples =
      renderNumberValidations (numberValidationsOf v) ++
      renderKeyValueValidations (keyValueValidationsOf v hideExamples) ++
      renderNameValidations (booleanValidationsOf v) ∧
    ∀ k,
      (k ∈ jsKeys (numberValidationsOf v) ↔
        k ∈ jsKeys v ∧ k ∈ numberValidationNames) ∧
      (k ∈ jsKeys (booleanValidationsOf v) ↔
        (∃ val, jsLookup v k = some val ∧
          (jsToString val = "true" ∨ jsToString val = "false")) ∧
        k ∉ excludedValidations) ∧
      (k ∈ jsKeys (keyValueValidationsOf v hideExamples) ↔
        k ∈ jsKeys v ∧ k ∉ jsKeys (numberValidationsOf v) ∧
        k ∉ jsKeys (booleanValidationsOf v) ∧ k ∉ excludedValidations ∧
        ¬(hideExamples = true ∧ k ∈ exampleValidationNames)) :=
  ⟨rfl, fun k => ⟨mem_jsKeys_numberValidationsOf v k,
    mem_jsKeys_booleanValidationsOf v hnd k,
    mem_jsKeys_keyValueValidationsOf v hideExamples k⟩⟩

/-- Witness for C4 on the spec's badge-order example
`minimum: 1, enum: [a, b], readOnly: true`: `minimum` lands in the numeric
bucket, `readOnly` is excluded from the boolean bucket, `enum` lands in the
keyed bucket. -/
theorem c4_partition_and_block_order_witness :
    "minimum" ∈ jsKeys (numberValidationsOf exValsDict) ∧
    "readOnly" ∉ jsKeys (booleanValidationsOf exValsDict) ∧
    "enum" ∈ jsKeys (keyValueValidationsOf exValsDict false) := by
  have h := c4_partition_and_block_order exValsDict false (by decide)
  refine ⟨?_, ?_, ?_⟩
  · exact ((h.2 "minimum").1).mpr (by decide)
  · intro hmem
    exact ((h.2 "readOnly").2.1.mp hmem).2 (by decide)
  · exact ((h.2 "enum").2.2).mpr ⟨by decide, by decide, by decide, by decide, by decide⟩

/-! ## Claim C2 -/

/-- C2: `isRequired` is `false` for the root and for empty paths; otherwise
it is `true` iff the parent's relevant schema (the parent's `items` for an
array parent with items, else the parent's schema) is non-null, not an
array, has primary type `object`, and its `required` list is an array
containing the stringified last path segment; any exception thrown during
the lookup is caught and yields `false`. -/
theorem c2_is_required_best_effort :
    (∀ n : TreeListNode, n.parent = none → isRequired n = false) ∧
    (∀ (n p : TreeListNode) (sn : SchemaNodeM) (sch : JSONSchema4),
      n.parent = some p → n.treeMeta = some (.schemaMeta sn sch []) →
      isRequired n = false) ∧
    (∀ (n p : TreeListNode) (e : String), n.parent = some p →
      isRequiredBody n p = Except.error e → isRequired n = false) ∧
    (∀ (n p : TreeListNode) (sn : SchemaNodeM) (sch : JSONSchema4)
        (path : List JsonValue), n.parent = some p →
      n.treeMeta = some (.schemaMeta sn sch path) → path ≠ [] →
      (isRequired n = true ↔
        ∃ s : JSONSchema4,
          getRelevantSchemaForRequireCheck p = Except.ok (some (.single s)) ∧
          getPrimaryType s.type = some "object" ∧
          ∃ req : List JsonValue, s.required = some (.arr req) ∧
            JsonValue.str (jsToString (path.getLastD .null)) ∈ req)) := by
  refine ⟨?_, ?_, ?_, ?_⟩
  · intro n h
    simp [isRequired, h]
  · intro n p sn sch hp hm
    have hmeta : getSchemaNodeMetadata n = Except.ok (sn, sch, []) := by
      simp [getSchemaNodeMetadata, getNodeMetadata, hm]
    simp [isRequired, hp, isRequiredBody, hmeta, Except.instMonad, Bind.bind, Except.bind, Pure.pure, Except.pure]
  · intro n p e hp herr
    simp [isRequired, hp, herr]
  · intro n p sn sch path hp hm hne
    have hmeta : getSchemaNodeMetadata n = Except.ok (sn, sch, path) := by
      simp [getSchemaNodeMetadata, getNodeMetadata, hm]
    have hlen : ¬(path.length = 0) := fun hc => hne (List.length_eq_zero.mp hc)
    cases hrel : getRelevantSchemaForRequireCheck p with
    | error e =>
      have hbody : isRequiredBody n p = Except.error e := by
        simp [isRequiredBody, hmeta, Except.instMonad, Bind.bind, Except.bind, Pure.pure, Except.pure, hlen, hrel]
      simp [isRequired, hp, hbody, hrel]
    | ok oschema =>
      cases oschema with
      | none =>
        have hbody : isRequiredBody n p = Except.ok false := by
          simp [isRequiredBody, hmeta, Except.instMonad, Bind.bind, Except.bind, Pure.pure, Except.pure, hlen, hrel]
        simp [isRequired, hp, hbody, hrel]
      | some sarr =>
        cases sarr with
        | array l =>
          have hbody : isRequiredBody n p = Except.ok false := by
            simp [isRequiredBody, hmeta, Except.instMonad, Bind.bind, Except.bind, Pure.pure, Except.pure, hlen, hrel]
          simp [isRequired, hp, hbody, hrel]
        | single s =>
          have hbody : isRequiredBody n p = Except.ok
              ((getPrimaryType s.type = some "object" : Bool) &&
                (match s.required with
                 | some (.arr req) =>
                   req.contains (.str (jsToString (path.getLastD .null)))
                 | _ => false)) := by
            simp [isRequiredBody, hmeta, Except.instMonad, Bind.bind, Except.bind, Pure.pure, Except.pure, hlen, hrel]
          rw [show isRequired n = (match isRequiredBody n p with
              | Except.ok b => b
              | Except.error _ => false) from by simp [isRequired, hp]]
          rw [hbody]
          simp only [hrel, Except.ok.injEq, Option.some.injEq,
            JSONSchema4OrArray.single.injEq, Bool.and_eq_true, decide_eq_true_eq,
            exists_eq_left']
          cases hreq : s.required with
          | none => simp
          | some rv =>
            cases rv with
            | null => simp
            | bool b => simp
            | num m => simp
            | str st => simp
            | arr req => simp [List.contains, List.elem_iff]
            | obj fs => simp

/-- Witness for C2: the root node is not required; the `id` child of the
object schema requiring `["id"]` is. -/
theorem c2_is_required_best_effort_witness :
    isRequired exRootNode = false ∧ isRequired exRequiredChild = true := by
  constructor
  · exact c2_is_required_best_effort.1 exRootNode rfl
  · exact (c2_is_required_best_effort.2.2.2 exRequiredChild exObjectParent
      exPlainSchemaNode { type := some (.str "string"), required := none }
      [.str "id"] rfl rfl (by decide)).mpr
      ⟨exObjectSchema, rfl, by decide, [.str "id"], rfl, by decide⟩

/-! ## Claim C3 -/

theorem jsIndexOf_of_nodup {α : Type} [DecidableEq α] (l : List α) (i : Nat) (x : α)
    (hnd : l.Nodup) (hget : l.get? i = some x) : jsIndexOf l x = (i : Int) := by
  induction l generalizing i with
  | nil => simp at hget
  | cons y rest ih =>
    rcases List.nodup_cons.mp hnd with ⟨hy, hrest⟩
    cases i with
    | zero =>
      have hyx : y = x := by simpa using hget
      subst hyx
      simp [jsIndexOf]
    | succ j =>
      have hget2 : rest.get? j = some x := by simpa using hget
      have hx : x ∈ rest := List.get?_mem hget2
      have hyx : ¬(y = x) := fun hc => hy (hc ▸ hx)
      have hr := ih j hrest hget2
      simp only [jsIndexOf, if_neg hyx, hr]
      have hj : ¬((j : Int) = -1) := by omega
      rw [if_neg hj]
      omega

/-- C3: when the user selects the branch schema at index `i` of the node's
candidate list, the handler first writes `i` into the choice state keyed by
the node's identity, and then triggers re-population of that node's children
with the chosen branch's schema and the node's path extended with `i`,
passing the eager flag as `false`.  (`path` and `items` are the component's
bindings for the node: its schema-metadata path and its combiner options;
the candidate list is duplicate-free, standing in for JS object identity in
`items.indexOf(item)`.) -/
theorem c3_combiner_selection_effects (node : TreeListNode) (sn : SchemaNodeM)
    (sch : JSONSchema4) (path : List JsonValue) (items : List JSONSchema4)
    (i : Nat) (item : JSONSchema4)
    (_hmeta : getSchemaNodeMetadata node = Except.ok (sn, sch, path))
    (_hitems : getCombinerOptions node = some items)
    (hnd : items.Nodup) (hget : items.get? i = some item) :
    onCombinerItemSelect node path items item =
      [RowEffect.setChoiceEffect node.id i,
       RowEffect.populateCombinerEffect node.id item (path ++ [.num i]) false] := by
  unfold onCombinerItemSelect
  rw [jsIndexOf_of_nodup items i item hnd hget]

/-- Witness for C3: selecting branch index 1 of the two-branch combiner
records index 1 and repopulates with branch 1's schema at path
`["value", 1]`, eagerness `false`. -/
theorem c3_combiner_selection_effects_witness :
    onCombinerItemSelect exCombinerNode [.str "value"]
        [exBranchString, exBranchNumber] exBranchNumber =
      [RowEffect.setChoiceEffect 3 1,
       RowEffect.populateCombinerEffect 3 exBranchNumber
         [.str "value", .num 1] false] := by
  have h := c3_combiner_selection_effects exCombinerNode exPlainSchemaNode
    exBranchString [.str "value"] [exBranchString, exBranchNumber] 1 exBranchNumber
    rfl rfl (by decide) rfl
  simpa using h

/-! ## Claim C5 -/

/-- C5 failing input: a row whose metadata is the schema variant but whose
combiner candidate list is empty.  `SchemaPropertyRow` evaluates
`items[chosenPropertyIndex].type` with `chosenPropertyIndex = 0` (the
`ChoiceState` default) and `items = []`, so the render throws a `TypeError`
that `SchemaRow` does not catch — contradicting the claim that no exception
propagates out of rendering a row. -/
theorem c5_render_throws_on_empty_combiner_options :
    renderSchemaRow [] exEmptyCombinerNode =
      Except.error "TypeError: cannot read properties of undefined (reading type)" := by
  rfl

/-! ## Claim C8 -/

/-- C8: a node whose attached metadata is an error placeholder renders as
the dedicated error row showing the placeholder's message, and each row of a
list is rendered by an independent call, so one row's outcome cannot affect
a sibling's. -/
theorem c8_error_placeholder_renders_error_row :
    (∀ (state : ChoiceState) (node : TreeListNode) (msg : String),
      node.treeMeta = some (.errorMeta msg) →
      renderSchemaRow state node = Except.ok (RenderedRow.errorRow msg)) ∧
    (∀ (state : ChoiceState) (nodes : List TreeListNode) (i : Nat),
      (renderRows state nodes)[i]? = nodes[i]?.map (renderSchemaRow state)) := by
  constructor
  · intro state node msg hm
    simp [renderSchemaRow, getNodeMetadata, hm, Except.instMonad, Bind.bind,
      Except.bind, Pure.pure, Except.pure, renderSchemaErrorRow]
  · intro state nodes i
    simp [renderRows, List.getElem?_map]

/-- Witness for C8: the concrete error-placeholder node renders the error
row with its message. -/
theorem c8_error_placeholder_renders_error_row_witness :
    renderSchemaRow [] exErrorNode =
      Except.ok (RenderedRow.errorRow "invalid schema subtree") :=
  c8_error_placeholder_renders_error_row.1 [] exErrorNode "invalid schema subtree" rfl

/-! ## Claim C9 -/

/-- C9: the node-click handler invokes `toggleExpand` on the clicked node
iff the node is a parent node (has a `children` member); a click on a leaf
leaves the expansion state unchanged. -/
theorem c9_click_toggles_only_parent_nodes :
    (∀ node : TreeListNode, node.children = none →
      nodeClickEffects node = [] ∧
      ∀ expanded : List Nat, applyNodeClick expanded node = expanded) ∧
    (∀ (node : TreeListNode) (c : List TreeListNode), node.children = some c →
      nodeClickEffects node = [TreeEffect.toggleExpandEffect node.id] ∧
      ∀ expanded : List Nat,
        applyNodeClick expanded node = toggleExpand expanded node.id) := by
  constructor
  · intro node h
    exact ⟨by simp [nodeClickEffects, h],
      fun expanded => by simp [applyNodeClick, h]⟩
  · intro node c h
    exact ⟨by simp [nodeClickEffects, h],
      fun expanded => by simp [applyNodeClick, h]⟩

/-- Witness for C9: a click on the leaf leaves the expansion set unchanged;
a click on the parent node emits exactly its toggle call. -/
theorem c9_click_toggles_only_parent_nodes_witness :
    applyNodeClick [9] exLeafNode = [9] ∧
    nodeClickEffects exParentNode = [TreeEffect.toggleExpandEffect 8] := by
  constructor
  · exact (c9_click_toggles_only_parent_nodes.1 exLeafNode rfl).2 [9]
  · exact (c9_click_toggles_only_parent_nodes.2 exParentNode [] rfl).1
